import Mathlib

/-
  Shallow embedding of the Embedding Management and Similarity Engine of
  src/components/EmbeddingScene.tsx.

  Modelling conventions:
  - JS numbers are modelled as rationals; the transcendental kernels
    Math.sqrt, Math.sin, Math.cos are abstract function parameters, so every
    theorem quantifies over them (witnesses instantiate a concrete rational
    square root that is exact on perfect squares).
  - A JS NaN arising in a distance computation is modelled as the value
    none of Option Rat; a finite distance d is some d.  In exact arithmetic
    a zero norm forces a zero dot product, so division by a zero norm
    product is 0/0 = NaN, hence none exactly when the norm product is zero
    (or when the reduce reads past the end of the second vector).
  - Array.prototype.sort with comparator (a, b) => a.distance - b.distance
    is a stable comparison sort; it is embedded as a stable insertion sort.
    A comparator call whose subtraction yields NaN is coerced to +0 by the
    JS sort (a tie), which distLE reflects by making none tie with
    everything.
-/

namespace VWE

/-- Sum of squares of the entries, as in
`a.reduce((acc, val) => acc + val * val, 0)`. -/
def sumSq (a : List ℚ) : ℚ :=
  (a.map fun x => x * x).sum

/-- The dot product `a.reduce((acc, val, i) => acc + val * b[i], 0)`.
The reduce walks the indices of `a`; when `a` is longer than `b` the read
`b[i]` is undefined and poisons the sum with NaN, modelled as none. -/
def jsDot (a b : List ℚ) : Option ℚ :=
  if a.length ≤ b.length then some (List.zipWith (fun x y => x * y) a b).sum
  else none

/-- Cosine distance from EmbeddingScene.tsx lines 68-73:
`1 - dot / (normA * normB)` with `norm• = Math.sqrt(sumSq •)`.
When the norm product is zero the JS quotient is 0/0 = NaN (none). -/
def cosineDistance (sqrt : ℚ → ℚ) (a b : List ℚ) : Option ℚ :=
  match jsDot a b with
  | none => none
  | some dot =>
      let normA := sqrt (sumSq a)
      let normB := sqrt (sumSq b)
      if normA * normB = 0 then none else some (1 - dot / (normA * normB))

/-- The JS comparator `(a, b) => a.distance - b.distance` produces a
non-positive number (insert before) exactly when the first distance is at
most the second; a comparison involving NaN is coerced to +0 (a tie). -/
def distLE : Option ℚ → Option ℚ → Bool
  | none, _ => true
  | some _, none => true
  | some a, some b => a ≤ b

/-- Stable insertion of an index-distance pair: the new element lands in
front of the first resident it does not strictly exceed, matching the
stability of Array.prototype.sort for elements arriving earlier. -/
def insertD (x : ℕ × Option ℚ) : List (ℕ × Option ℚ) → List (ℕ × Option ℚ)
  | [] => [x]
  | y :: ys => if distLE x.2 y.2 then x :: y :: ys else y :: insertD x ys

/-- Stable sort of index-distance pairs by distance, the embedding of
`.sort((a, b) => a.distance - b.distance)`. -/
def sortD : List (ℕ × Option ℚ) → List (ℕ × Option ℚ)
  | [] => []
  | x :: xs => insertD x (sortD xs)

/-- The strict lexicographic order that the stable sort realises on
index-distance pairs with finite distances: strictly smaller distance, or
equal distance and strictly smaller index. -/
def pairLT (p q : ℕ × Option ℚ) : Prop :=
  (∃ a b : ℚ, p.2 = some a ∧ q.2 = some b ∧ a < b) ∨ (p.2 = q.2 ∧ p.1 < q.1)

/-- EmbeddingScene.tsx lines 76-85: map cosineDistance over the store,
pair each distance with its index, sort by distance, `slice(1, k + 1)`
(drop the first sorted element, keep the next k), return the indices. -/
def findNearestNeighbors (sqrt : ℚ → ℚ) (currentEmbeddings : List (List ℚ))
    (embedding : List ℚ) (k : ℕ) : List ℕ :=
  let distances := currentEmbeddings.map fun e => cosineDistance sqrt e embedding
  let sortedIndexes := ((sortD distances.enum).drop 1).take k
  sortedIndexes.map fun item => item.1

/-- The distance of the store entry at index i from the query, if the
index is in range (outer Option); the inner Option is the NaN modelling. -/
def distanceAt (sqrt : ℚ → ℚ) (store : List (List ℚ)) (q : List ℚ) (i : ℕ) :
    Option (Option ℚ) :=
  (store.get? i).map fun e => cosineDistance sqrt e q

/-- A concrete instantiation of the abstract Math.sqrt parameter, used
only by witnesses and counterexamples.  It agrees with the real square
root on every argument those concrete runs produce (only 0, 1 and 4
occur there). -/
def demoSqrt (q : ℚ) : ℚ :=
  if q = 0 then 0 else if q = 1 then 1 else if q = 4 then 2 else q

/-- JS String.prototype.trim: remove leading and trailing whitespace.
Stated on the character list so that it evaluates by kernel reduction. -/
def jsTrim (w : String) : String :=
  ⟨((w.data.dropWhile Char.isWhitespace).reverse.dropWhile
      Char.isWhitespace).reverse⟩

/-- EmbeddingScene.tsx lines 88-101: reject a blank (whitespace-only)
input, then test `/^[a-zA-Z]+$/` on the untrimmed word. -/
def validateWord (word : String) : Bool :=
  if jsTrim word = "" then false
  else !word.data.isEmpty && word.data.all Char.isAlpha

/-- `newWord.toLowerCase()`: lowercase every character. -/
def jsToLowerCase (w : String) : String :=
  ⟨w.data.map Char.toLower⟩

/-- The reactive state of EmbeddingScene that the claims concern:
currentVocab, currentEmbeddings, highlightedWord, nearestIndexes. -/
structure SceneState where
  vocab : List String
  embeddings : List (List ℚ)
  highlightedWord : Option String
  nearestIndexes : List ℕ
  deriving Repr, DecidableEq

/-- EmbeddingScene.tsx lines 104-134 (success path of the model branch):
validate, embed the lowercased word through the model (the abstract
embedFn), append the word and its vector, highlight the new word.
nearestIndexes is not touched by this handler. -/
def addWord (s : SceneState) (embedFn : String → List ℚ) (newWord : String) :
    SceneState :=
  if validateWord newWord then
    { s with
      vocab := s.vocab ++ [newWord]
      embeddings := s.embeddings ++ [embedFn (jsToLowerCase newWord)]
      highlightedWord := some newWord }
  else s

/-- EmbeddingScene.tsx lines 144-156: the deterministic fallback vector.
charValues maps each lowercased character to charCodeAt - 96; component i
of the 100-vector is sin(charValue * (i/100)) * cos(charValue) with
charValue = charValues[i % charValues.length]. -/
def fallbackEmbedding (sin cos : ℚ → ℚ) (word : String) : List ℚ :=
  let chars := word.data.map Char.toLower
  let charValues := chars.map fun c => (c.toNat : ℚ) - 96
  (List.range 100).map fun i =>
    let charValue := (charValues.get? (i % charValues.length)).getD 0
    sin (charValue * ((i : ℚ) / 100)) * cos charValue

/-- EmbeddingScene.tsx lines 137-172 (success path): validate, append the
word and its fallback vector, highlight the new word.  No dimensionality
check is performed against the existing store. -/
def fallbackAddWord (sin cos : ℚ → ℚ) (s : SceneState) (newWord : String) :
    SceneState :=
  if validateWord newWord then
    { s with
      vocab := s.vocab ++ [newWord]
      embeddings := s.embeddings ++ [fallbackEmbedding sin cos newWord]
      highlightedWord := some newWord }
  else s

/-- Modelled from the spec: the DeterministicFallback formula of section
4.3, stated in the words of the spec — charValue for component i is
ord(word[i mod wordLength]) - ord(a-character) + 1 and
value[i] = sin(charValue * (i/100)) * cos(charValue). -/
def specFallback (sin cos : ℚ → ℚ) (word : String) : List ℚ :=
  let charValues := word.data.map fun c =>
    (c.toNat : ℚ) - (Char.toNat 'a' : ℚ) + 1
  (List.range 100).map fun i =>
    let charValue := (charValues.get? (i % word.data.length)).getD 0
    sin (charValue * ((i : ℚ) / 100)) * cos charValue

/-- EmbeddingScene.tsx lines 264-280, the onSelect handler: clicking the
highlighted word clears highlight and neighbors; clicking a different word
highlights it and, when it is found in the vocab, recomputes neighbors
from its stored vector (k defaults to 5). -/
def onSelect (sqrt : ℚ → ℚ) (s : SceneState) (word : String) : SceneState :=
  if s.highlightedWord = some word then
    { s with highlightedWord := none, nearestIndexes := [] }
  else
    match s.vocab.findIdx? (fun v => v == word) with
    | some idx =>
        { s with
          highlightedWord := some word
          nearestIndexes :=
            findNearestNeighbors sqrt s.embeddings (s.embeddings.getD idx []) 5 }
    | none => { s with highlightedWord := some word }

/-- The model-loading state of EmbeddingScene.tsx lines 31-54: the model
and the isModelLoading flag. -/
structure ModelState where
  model : Option Unit
  isModelLoading : Bool
  deriving Repr, DecidableEq

/-- One run of the loadUSEModel effect up to its first suspension: when no
model is present and no load is in flight, the flag is set and a load
attempt starts (the returned Bool records whether an attempt started). -/
def effectStep (s : ModelState) : ModelState × Bool :=
  if s.model.isNone && !s.isModelLoading then
    ({ s with isModelLoading := true }, true)
  else (s, false)

/-- The catch/finally continuation of a failed load: the model stays
absent and the flag is cleared. -/
def loadFailure (s : ModelState) : ModelState :=
  { s with isModelLoading := false }

/-- The then/finally continuation of a successful load. -/
def loadSuccess (_s : ModelState) : ModelState :=
  { model := some (), isModelLoading := false }

end VWE

namespace VWE

theorem length_insertD (x : ℕ × Option ℚ) (l : List (ℕ × Option ℚ)) :
    (insertD x l).length = l.length + 1 := by
  induction l with
  | nil => rfl
  | cons y ys ih =>
    rw [insertD]
    split
    · rfl
    · simp [List.length_cons, ih]

theorem length_sortD (l : List (ℕ × Option ℚ)) :
    (sortD l).length = l.length := by
  induction l with
  | nil => rfl
  | cons x xs ih => rw [sortD, length_insertD, ih, List.length_cons]

theorem mem_insertD {p x : ℕ × Option ℚ} {l : List (ℕ × Option ℚ)}
    (hp : p ∈ insertD x l) : p = x ∨ p ∈ l := by
  induction l with
  | nil => simpa [insertD] using hp
  | cons y ys ih =>
    rw [insertD] at hp
    split at hp
    · rcases List.mem_cons.1 hp with h | h
      · exact Or.inl h
      · exact Or.inr h
    · rcases List.mem_cons.1 hp with h | h
      · exact Or.inr (List.mem_cons.2 (Or.inl h))
      · rcases ih h with h1 | h1
        · exact Or.inl h1
        · exact Or.inr (List.mem_cons.2 (Or.inr h1))

theorem mem_sortD {p : ℕ × Option ℚ} {l : List (ℕ × Option ℚ)}
    (hp : p ∈ sortD l) : p ∈ l := by
  induction l with
  | nil => simp [sortD] at hp
  | cons x xs ih =>
    rw [sortD] at hp
    rcases mem_insertD hp with h | h
    · exact h ▸ List.mem_cons_self x xs
    · exact List.mem_cons_of_mem x (ih h)

theorem distLE_some {a b : ℚ} (h : distLE (some a) (some b) = true) :
    a ≤ b := by
  simpa [distLE] using h

theorem distLE_of_false {u v : Option ℚ} (h : ¬ distLE u v = true) :
    ∃ a b : ℚ, u = some a ∧ v = some b ∧ b < a := by
  match u, v with
  | none, v => simp [distLE] at h
  | some a, none => simp [distLE] at h
  | some a, some b =>
    have hab : ¬ a ≤ b := by simpa [distLE] using h
    exact ⟨a, b, rfl, rfl, not_le.mp hab⟩

theorem pairwise_insertD {x : ℕ × Option ℚ} {l : List (ℕ × Option ℚ)}
    (hl : l.Pairwise pairLT) (hidx : ∀ y ∈ l, x.1 < y.1)
    (hxf : x.2 ≠ none) (hlf : ∀ y ∈ l, y.2 ≠ none) :
    (insertD x l).Pairwise pairLT := by
  induction l with
  | nil => simp [insertD]
  | cons y ys ih =>
    rw [insertD]
    obtain ⟨a, hxa⟩ := Option.ne_none_iff_exists'.1 hxf
    obtain ⟨b, hyb⟩ :=
      Option.ne_none_iff_exists'.1 (hlf y (List.mem_cons_self y ys))
    rw [List.pairwise_cons] at hl
    split
    case isTrue h =>
      rw [List.pairwise_cons]
      refine ⟨?_, List.pairwise_cons.2 hl⟩
      intro z hz
      have hab : a ≤ b := by
        rw [hxa, hyb] at h; exact distLE_some h
      rcases List.mem_cons.1 hz with rfl | hzys
      · rcases lt_or_eq_of_le hab with hlt | heq
        · exact Or.inl ⟨a, b, hxa, hyb, hlt⟩
        · exact Or.inr ⟨by rw [hxa, hyb, heq],
            hidx z (List.mem_cons_self z ys)⟩
      · have hyz := hl.1 z hzys
        rcases hyz with ⟨b1, c1, hb1, hc1, hlt⟩ | ⟨heq, _⟩
        · have hab1 : a ≤ b1 := by
            rw [hxa, hb1] at h; exact distLE_some h
          exact Or.inl ⟨a, c1, hxa, hc1, lt_of_le_of_lt hab1 hlt⟩
        · have hzb : z.2 = some b := heq.symm.trans hyb
          rcases lt_or_eq_of_le hab with hlt | heqq
          · exact Or.inl ⟨a, b, hxa, hzb, hlt⟩
          · exact Or.inr ⟨by rw [hxa, hzb, heqq], hidx z hz⟩
    case isFalse h =>
      rw [List.pairwise_cons]
      constructor
      · intro z hz
        rcases mem_insertD hz with rfl | hzys
        · obtain ⟨a1, b1, ha1, hb1, hba⟩ := distLE_of_false h
          exact Or.inl ⟨b1, a1, hb1, ha1, hba⟩
        · exact hl.1 z hzys
      · exact ih hl.2 (fun z hz => hidx z (List.mem_cons_of_mem y hz))
          (fun z hz => hlf z (List.mem_cons_of_mem y hz))

theorem pairwise_sortD {l : List (ℕ × Option ℚ)}
    (hidx : l.Pairwise fun p q => p.1 < q.1)
    (hf : ∀ p ∈ l, p.2 ≠ none) :
    (sortD l).Pairwise pairLT := by
  induction l with
  | nil => simp [sortD]
  | cons x xs ih =>
    rw [sortD]
    rw [List.pairwise_cons] at hidx
    exact pairwise_insertD
      (ih hidx.2 fun p hp => hf p (List.mem_cons_of_mem x hp))
      (fun y hy => hidx.1 y (mem_sortD hy))
      (hf x (List.mem_cons_self x xs))
      (fun y hy => hf y (List.mem_cons_of_mem x (mem_sortD hy)))

end VWE

namespace VWE

/-- C2: for every store snapshot and query whose distances are all finite,
findNearestNeighbors returns exactly min k (n - 1) indices — hence at most
k, and all remaining candidates when fewer than k remain after the one
removed element — and the returned indices are in non-decreasing distance
order with equal-distance candidates in ascending index order. -/
theorem nearest_bounded_sorted_ties_by_index (sqrt : ℚ → ℚ)
    (store : List (List ℚ)) (qv : List ℚ) (k : ℕ)
    (hfin : ∀ e ∈ store, cosineDistance sqrt e qv ≠ none) :
    (findNearestNeighbors sqrt store qv k).length = min k (store.length - 1) ∧
    (findNearestNeighbors sqrt store qv k).Pairwise fun i j =>
      ∃ di dj : ℚ, distanceAt sqrt store qv i = some (some di) ∧
        distanceAt sqrt store qv j = some (some dj) ∧
        (di < dj ∨ (di = dj ∧ i < j)) := by
  have hds : findNearestNeighbors sqrt store qv k =
      (((sortD ((store.map fun e => cosineDistance sqrt e qv).enum)).drop 1).take k).map
        fun item => item.1 := rfl
  set ds := store.map fun e => cosineDistance sqrt e qv with hdsdef
  have hlen : ds.length = store.length := List.length_map _ _
  have hgen : ∀ p ∈ sortD ds.enum, ds.get? p.1 = some p.2 := fun p hp =>
    List.mem_enum_iff_get?.1 (mem_sortD hp)
  have hfin2 : ∀ p ∈ ds.enum, p.2 ≠ none := by
    intro p hp
    have hg := List.mem_enum_iff_get?.1 hp
    have hmem : p.2 ∈ ds := List.get?_mem hg
    rw [hdsdef] at hmem
    obtain ⟨e, he, hpe⟩ := List.mem_map.1 hmem
    rw [← hpe]
    exact hfin e he
  have hidx : ds.enum.Pairwise fun p q => p.1 < q.1 := by
    have h1 : (ds.enum.map Prod.fst).Pairwise (· < ·) := by
      rw [List.enum_map_fst]
      exact List.pairwise_lt_range _
    exact List.pairwise_map.1 h1
  have hsorted := pairwise_sortD hidx hfin2
  have hda : ∀ i, distanceAt sqrt store qv i = ds.get? i := by
    intro i
    rw [hdsdef, distanceAt, List.get?_map]
  constructor
  · rw [hds, List.length_map, List.length_take, List.length_drop,
      length_sortD, List.enum_length, hlen]
  · rw [hds, List.pairwise_map]
    have hsub : List.Sublist (((sortD ds.enum).drop 1).take k)
        (sortD ds.enum) :=
      (List.take_sublist _ _).trans (List.drop_sublist _ _)
    refine List.Pairwise.imp_of_mem ?_ (hsorted.sublist hsub)
    intro p q hp hq hpq
    have hpg : ds.get? p.1 = some p.2 := hgen p (hsub.subset hp)
    have hqg : ds.get? q.1 = some q.2 := hgen q (hsub.subset hq)
    obtain ⟨a, ha⟩ :=
      Option.ne_none_iff_exists'.1 (hfin2 p (mem_sortD (hsub.subset hp)))
    obtain ⟨b, hb⟩ :=
      Option.ne_none_iff_exists'.1 (hfin2 q (mem_sortD (hsub.subset hq)))
    refine ⟨a, b, ?_, ?_, ?_⟩
    · rw [hda, hpg, ha]
    · rw [hda, hqg, hb]
    · rcases hpq with ⟨a1, b1, ha1, hb1, hlt⟩ | ⟨heq, hidxlt⟩
      · rw [ha] at ha1
        rw [hb] at hb1
        injection ha1 with e1
        injection hb1 with e2
        exact Or.inl (by rw [e1, e2]; exact hlt)
      · right
        refine ⟨?_, hidxlt⟩
        have : some a = some b := by rw [← ha, ← hb, heq]
        injection this
  
end VWE

namespace VWE

/-- C1: evaluation of the code at the failing input.  The store holds the
parallel vectors [1,0] (index 0) and [2,0] (index 1); the query is the
vector of the word at index 1, and both cosine distances are 0.  The
stable sort keeps the tied index 0 first, `slice(1, k + 1)` drops it, and
the result [1] contains the query word index itself while omitting
index 0: the excluded index is not omitted, contrary to the claim. -/
theorem nearest_keeps_query_own_index_on_tie :
    findNearestNeighbors demoSqrt [[1, 0], [2, 0]] [2, 0] 5 = [1] := by
  norm_num [findNearestNeighbors, cosineDistance, jsDot, sumSq, demoSqrt,
    distLE, sortD, insertD, List.enum, List.enumFrom]

/-- Witness for C2 at a concrete store: with store [[1,0],[0,1]] and
query [1,0], all distances are finite, and the result [1] has length
min 5 (2 - 1) = 1 and is lexicographically ordered. -/
theorem nearest_bounded_sorted_ties_by_index_witness :
    (findNearestNeighbors demoSqrt [[1, 0], [0, 1]] [1, 0] 5).length
      = min 5 (([[1, 0], [0, 1]] : List (List ℚ)).length - 1) ∧
    (findNearestNeighbors demoSqrt [[1, 0], [0, 1]] [1, 0] 5).Pairwise
      fun i j => ∃ di dj : ℚ,
        distanceAt demoSqrt [[1, 0], [0, 1]] [1, 0] i = some (some di) ∧
        distanceAt demoSqrt [[1, 0], [0, 1]] [1, 0] j = some (some dj) ∧
        (di < dj ∨ (di = dj ∧ i < j)) :=
  nearest_bounded_sorted_ties_by_index demoSqrt [[1, 0], [0, 1]] [1, 0] 5
    (by
      intro e he
      rcases List.mem_cons.1 he with rfl | he1
      · norm_num [cosineDistance, jsDot, sumSq, demoSqrt]
        decide
      · rcases List.mem_cons.1 he1 with rfl | he2
        · norm_num [cosineDistance, jsDot, sumSq, demoSqrt]
          decide
        · simp at he2)

/-- C3 counterexample: appending the word cat twice succeeds both times;
the store ends with two entries and size 2, not a rejected second append
with size 1. -/
theorem addWord_duplicate_cat_accepted :
    (addWord (addWord ⟨[], [], none, []⟩ (fun _ => [1]) "cat")
        (fun _ => [1]) "cat").vocab = ["cat", "cat"] ∧
    (addWord (addWord ⟨[], [], none, []⟩ (fun _ => [1]) "cat")
        (fun _ => [1]) "cat").vocab.length = 2 := by
  constructor <;> decide

/-- C3 amended: no duplicate check exists; a valid word already present in
the store is appended again, growing the store by one entry. -/
theorem addWord_ignores_duplicates (s : SceneState) (f : String → List ℚ)
    (w : String) (hval : validateWord w = true) (_hmem : w ∈ s.vocab) :
    (addWord s f w).vocab = s.vocab ++ [w] ∧
    (addWord s f w).vocab.length = s.vocab.length + 1 := by
  have h : (addWord s f w).vocab = s.vocab ++ [w] := by
    simp only [addWord, if_pos hval]
  exact ⟨h, by rw [h]; simp⟩

/-- Witness for the amended C3: the store already holding cat accepts cat
again. -/
theorem addWord_ignores_duplicates_witness :
    (addWord ⟨["cat"], [[1]], none, []⟩ (fun _ => [1]) "cat").vocab
      = ["cat"] ++ ["cat"] ∧
    (addWord ⟨["cat"], [[1]], none, []⟩ (fun _ => [1]) "cat").vocab.length
      = (["cat"] : List String).length + 1 :=
  addWord_ignores_duplicates ⟨["cat"], [[1]], none, []⟩ (fun _ => [1]) "cat"
    (by decide) (by decide)

/-- C4 counterexample: a store established at dimensionality 3 accepts the
100-component fallback vector for cat; the store changes and becomes
mixed-dimensional instead of failing with DimensionMismatch. -/
theorem fallback_append_dimension_mismatch_accepted :
    (fallbackAddWord id id ⟨["a"], [[1, 0, 0]], none, []⟩ "cat").embeddings.length = 2 ∧
    ((fallbackAddWord id id ⟨["a"], [[1, 0, 0]], none, []⟩ "cat").embeddings.getD 0 []).length = 3 ∧
    ((fallbackAddWord id id ⟨["a"], [[1, 0, 0]], none, []⟩ "cat").embeddings.getD 1 []).length = 100 ∧
    (fallbackAddWord id id ⟨["a"], [[1, 0, 0]], none, []⟩ "cat").vocab = ["a", "cat"] := by
  have hval : validateWord "cat" = true := by decide
  simp [fallbackAddWord, if_pos hval, fallbackEmbedding]

/-- C4 amended: neither append path checks dimensionality; fallbackAddWord
always appends its 100-component vector and addWord always appends
whatever vector the model returns, whatever the established store
dimensionality is. -/
theorem append_skips_dimension_check (sin cos : ℚ → ℚ) (s : SceneState)
    (f : String → List ℚ) (w : String) (hval : validateWord w = true) :
    (fallbackAddWord sin cos s w).embeddings
      = s.embeddings ++ [fallbackEmbedding sin cos w] ∧
    (fallbackEmbedding sin cos w).length = 100 ∧
    (addWord s f w).embeddings = s.embeddings ++ [f (jsToLowerCase w)] := by
  refine ⟨?_, ?_, ?_⟩
  · simp only [fallbackAddWord, if_pos hval]
  · simp [fallbackEmbedding]
  · simp only [addWord, if_pos hval]

/-- Witness for the amended C4 at the dimension-3 store. -/
theorem append_skips_dimension_check_witness :
    (fallbackAddWord id id ⟨["a"], [[1, 0, 0]], none, []⟩ "cat").embeddings
      = [[1, 0, 0]] ++ [fallbackEmbedding id id "cat"] ∧
    (fallbackEmbedding id id "cat").length = 100 ∧
    (addWord ⟨["a"], [[1, 0, 0]], none, []⟩ (fun _ => [1]) "cat").embeddings
      = [[1, 0, 0]] ++ [(fun _ => ([1] : List ℚ)) (jsToLowerCase "cat")] :=
  append_skips_dimension_check id id ⟨["a"], [[1, 0, 0]], none, []⟩
    (fun _ => [1]) "cat" (by decide)

end VWE

namespace VWE

/-- C5 counterexample: starting from a store with one word and no
selection, adding dog leaves nearestIndexes at its stale value [] even
though the fresh neighbor computation for the new word vector yields [0]:
the neighbor set is not freshly computed on wordAdded. -/
theorem addWord_keeps_stale_neighbor_indexes :
    (addWord ⟨["a"], [[1, 0]], none, []⟩ (fun _ => [0, 1]) "dog").nearestIndexes = [] ∧
    findNearestNeighbors demoSqrt
      (addWord ⟨["a"], [[1, 0]], none, []⟩ (fun _ => [0, 1]) "dog").embeddings
      ((fun (_ : String) => ([0, 1] : List ℚ)) "dog") 5 = [0] ∧
    (addWord ⟨["a"], [[1, 0]], none, []⟩ (fun _ => [0, 1]) "dog").nearestIndexes
      ≠ findNearestNeighbors demoSqrt
          (addWord ⟨["a"], [[1, 0]], none, []⟩ (fun _ => [0, 1]) "dog").embeddings
          ((fun (_ : String) => ([0, 1] : List ℚ)) "dog") 5 := by
  have hemb : (addWord ⟨["a"], [[1, 0]], none, []⟩ (fun _ => [0, 1]) "dog").embeddings
      = [[1, 0], [0, 1]] := by decide
  have hnn : findNearestNeighbors demoSqrt [[1, 0], [0, 1]] [0, 1] 5 = [0] := by
    norm_num [findNearestNeighbors, cosineDistance, jsDot, sumSq, demoSqrt,
      distLE, sortD, insertD, List.enum, List.enumFrom]
  refine ⟨by decide, ?_, ?_⟩
  · rw [hemb]
    exact hnn
  · rw [hemb, hnn]
    decide

/-- C5 amended: a successful addWord sets the highlight to the new word
but leaves nearestIndexes exactly as they were before the addition; no
fresh neighbor computation happens on the wordAdded transition. -/
theorem addWord_highlights_without_recompute (s : SceneState)
    (f : String → List ℚ) (w : String) (hval : validateWord w = true) :
    (addWord s f w).highlightedWord = some w ∧
    (addWord s f w).nearestIndexes = s.nearestIndexes := by
  constructor <;> simp only [addWord, if_pos hval]

/-- Witness for the amended C5. -/
theorem addWord_highlights_without_recompute_witness :
    (addWord ⟨["a"], [[1, 0]], some "a", [0]⟩ (fun _ => [0, 1]) "dog").highlightedWord
      = some "dog" ∧
    (addWord ⟨["a"], [[1, 0]], some "a", [0]⟩ (fun _ => [0, 1]) "dog").nearestIndexes
      = (⟨["a"], [[1, 0]], some "a", [0]⟩ : SceneState).nearestIndexes :=
  addWord_highlights_without_recompute ⟨["a"], [[1, 0]], some "a", [0]⟩
    (fun _ => [0, 1]) "dog" (by decide)

/-- A lowercase letter is unchanged by Char.toLower. -/
theorem toLower_eq_self_of_lower {c : Char} (h : 97 ≤ c.toNat) :
    Char.toLower c = c := by
  have hn : ¬ (c.toNat ≥ 65 ∧ c.toNat ≤ 90) := by omega
  simp only [Char.toLower]
  rw [if_neg hn]

/-- C6: on a nonempty word of lowercase letters, the fallback embedding of
the source equals the spec formula — a 100-component vector whose
component i is sin(charValue * (i/100)) * cos(charValue) with
charValue = ord(word[i mod wordLength]) - ord(a-character) + 1 — and
being a pure function of the word it is reproducible verbatim. -/
theorem fallbackEmbedding_matches_spec_formula (sin cos : ℚ → ℚ)
    (word : String) (_hne : word.data ≠ [])
    (hlc : ∀ c ∈ word.data, 97 ≤ c.toNat ∧ c.toNat ≤ 122) :
    fallbackEmbedding sin cos word = specFallback sin cos word ∧
    (fallbackEmbedding sin cos word).length = 100 := by
  have hmap : word.data.map Char.toLower = word.data := by
    have h1 : word.data.map Char.toLower = word.data.map id :=
      List.map_congr_left fun c hc => toLower_eq_self_of_lower (hlc c hc).1
    rw [h1, List.map_id]
  have hcv : (word.data.map Char.toLower).map (fun c => (c.toNat : ℚ) - 96)
      = word.data.map fun c => (c.toNat : ℚ) - (Char.toNat 'a' : ℚ) + 1 := by
    rw [hmap]
    refine List.map_congr_left fun c hc => ?_
    have h97 : Char.toNat 'a' = 97 := rfl
    rw [h97]
    push_cast
    ring
  constructor
  · simp only [fallbackEmbedding, specFallback, hcv, List.length_map]
  · simp [fallbackEmbedding]

/-- Witness for C6 at the word cat with the identity kernels. -/
theorem fallbackEmbedding_matches_spec_formula_witness :
    fallbackEmbedding id id "cat" = specFallback id id "cat" ∧
    (fallbackEmbedding id id "cat").length = 100 :=
  fallbackEmbedding_matches_spec_formula id id "cat" (by decide) (by decide)

end VWE

namespace VWE

/-- C7 counterexample: with the query [1,0] over the store
[[1,0], [0,0], [0,1]], the zero-norm candidate at index 1 has NaN
distance while index 2 has finite distance 1, yet the ranking returns
[1, 2]: the zero-norm candidate precedes a finite-distance candidate
instead of sorting after all finite-distance candidates. -/
theorem zero_norm_candidate_not_sorted_last :
    cosineDistance demoSqrt [0, 0] [1, 0] = none ∧
    cosineDistance demoSqrt [0, 1] [1, 0] = some 1 ∧
    findNearestNeighbors demoSqrt [[1, 0], [0, 0], [0, 1]] [1, 0] 5 = [1, 2] := by
  refine ⟨?_, ?_, ?_⟩
  · norm_num [cosineDistance, jsDot, sumSq, demoSqrt]
  · norm_num [cosineDistance, jsDot, sumSq, demoSqrt]
  · norm_num [findNearestNeighbors, cosineDistance, jsDot, sumSq, demoSqrt,
      distLE, sortD, insertD, List.enum, List.enumFrom]

/-- C7 amended: a distance computation involving a zero-norm vector does
not raise an error but evaluates to NaN, and the sort comparator treats
every comparison involving NaN as a tie — so a zero-norm candidate keeps
its original position among the candidates rather than sorting after all
finite-distance candidates. -/
theorem zero_norm_distance_is_nan_tie (sqrt : ℚ → ℚ) (a b : List ℚ)
    (hz : sumSq a = 0 ∨ sumSq b = 0) (hsqrt : sqrt 0 = 0) :
    cosineDistance sqrt a b = none ∧
    ∀ d : Option ℚ, distLE none d = true ∧ distLE d none = true := by
  constructor
  · unfold cosineDistance
    cases hjd : jsDot a b with
    | none => rfl
    | some dot =>
      rcases hz with h | h
      · simp [h, hsqrt]
      · simp [h, hsqrt]
  · intro d
    cases d <;> simp [distLE]

/-- Witness for the amended C7 at the zero vector [0,0] against [1,0]. -/
theorem zero_norm_distance_is_nan_tie_witness :
    cosineDistance demoSqrt [0, 0] [1, 0] = none ∧
    ∀ d : Option ℚ, distLE none d = true ∧ distLE d none = true :=
  zero_norm_distance_is_nan_tie demoSqrt [0, 0] [1, 0]
    (Or.inl (by norm_num [sumSq])) (by norm_num [demoSqrt])

/-- C8: clicking the already-highlighted word clears the highlight and
empties the neighbor set (toggle-off to Idle); clicking a different word
that exists in the vocabulary highlights it and recomputes its neighbors
with k = 5 from its stored vector. -/
theorem onSelect_toggle_off_and_recompute (sqrt : ℚ → ℚ) (s : SceneState)
    (w : String) :
    (s.highlightedWord = some w →
      (onSelect sqrt s w).highlightedWord = none ∧
      (onSelect sqrt s w).nearestIndexes = []) ∧
    (∀ idx, s.highlightedWord ≠ some w →
      s.vocab.findIdx? (fun v => v == w) = some idx →
      (onSelect sqrt s w).highlightedWord = some w ∧
      (onSelect sqrt s w).nearestIndexes =
        findNearestNeighbors sqrt s.embeddings (s.embeddings.getD idx []) 5) := by
  constructor
  · intro h
    constructor <;> simp only [onSelect, if_pos h]
  · intro idx hne hidx
    constructor <;> simp only [onSelect, if_neg hne, hidx]

/-- Witness for C8: toggling cat off from the active state, and selecting
dog from the idle state. -/
theorem onSelect_toggle_off_and_recompute_witness :
    ((onSelect demoSqrt ⟨["cat", "dog"], [[1, 0], [0, 1]], some "cat", [1]⟩
        "cat").highlightedWord = none ∧
      (onSelect demoSqrt ⟨["cat", "dog"], [[1, 0], [0, 1]], some "cat", [1]⟩
        "cat").nearestIndexes = []) ∧
    ((onSelect demoSqrt ⟨["cat", "dog"], [[1, 0], [0, 1]], none, []⟩
        "dog").highlightedWord = some "dog" ∧
      (onSelect demoSqrt ⟨["cat", "dog"], [[1, 0], [0, 1]], none, []⟩
        "dog").nearestIndexes =
        findNearestNeighbors demoSqrt [[1, 0], [0, 1]]
          (([[1, 0], [0, 1]] : List (List ℚ)).getD 1 []) 5) :=
  ⟨(onSelect_toggle_off_and_recompute demoSqrt
      ⟨["cat", "dog"], [[1, 0], [0, 1]], some "cat", [1]⟩ "cat").1 (by decide),
   (onSelect_toggle_off_and_recompute demoSqrt
      ⟨["cat", "dog"], [[1, 0], [0, 1]], none, []⟩ "dog").2 1
      (by decide) (by decide)⟩

/-- C9 counterexample: from the initial state a first load attempt starts;
after it fails, the very next effect run starts a second load attempt —
the load is retried after a failure, contrary to the claim that no
automatic retry ever occurs. -/
theorem load_retries_after_failure :
    (effectStep ⟨none, false⟩).2 = true ∧
    (effectStep (loadFailure (effectStep ⟨none, false⟩).1)).2 = true := by
  decide

/-- C9 amended: while a load is in flight the effect does not start a
second concurrent attempt, and once a model is present no further attempt
starts; but after a failed attempt the flag is cleared with the model
still absent, so the next effect run starts a new load attempt (retry on the
next render). -/
theorem load_guard_blocks_concurrent_not_retry (s : ModelState) :
    (s.isModelLoading = true → (effectStep s).2 = false) ∧
    (s.model.isSome = true → (effectStep s).2 = false) ∧
    (s.model = none → (effectStep (loadFailure s)).2 = true) := by
  refine ⟨?_, ?_, ?_⟩
  · intro h
    simp [effectStep, h]
  · intro h
    obtain ⟨u, hu⟩ := Option.isSome_iff_exists.1 h
    simp [effectStep, hu]
  · intro h
    simp [effectStep, loadFailure, h]

/-- Witness for the amended C9: the guard blocks a concurrent attempt in
the in-flight state, blocks once loaded, and retries after a failure. -/
theorem load_guard_blocks_concurrent_not_retry_witness :
    (effectStep ⟨none, true⟩).2 = false ∧
    (effectStep ⟨some (), false⟩).2 = false ∧
    (effectStep (loadFailure ⟨none, false⟩)).2 = true :=
  ⟨(load_guard_blocks_concurrent_not_retry ⟨none, true⟩).1 (by decide),
   (load_guard_blocks_concurrent_not_retry ⟨some (), false⟩).2.1 (by decide),
   (load_guard_blocks_concurrent_not_retry ⟨none, false⟩).2.2 (by decide)⟩

/-- C10: both append paths preserve every previously stored word and
vector at its index (index stability), and never shrink the store — the
store is never truncated or reordered by an append. -/
theorem append_preserves_existing_entries (s : SceneState)
    (f : String → List ℚ) (sin cos : ℚ → ℚ) (w : String) (i : ℕ)
    (hv : i < s.vocab.length) (he : i < s.embeddings.length) :
    (addWord s f w).vocab.get? i = s.vocab.get? i ∧
    (addWord s f w).embeddings.get? i = s.embeddings.get? i ∧
    (fallbackAddWord sin cos s w).vocab.get? i = s.vocab.get? i ∧
    (fallbackAddWord sin cos s w).embeddings.get? i = s.embeddings.get? i ∧
    s.vocab.length ≤ (addWord s f w).vocab.length ∧
    s.embeddings.length ≤ (addWord s f w).embeddings.length ∧
    s.vocab.length ≤ (fallbackAddWord sin cos s w).vocab.length ∧
    s.embeddings.length ≤ (fallbackAddWord sin cos s w).embeddings.length := by
  by_cases hval : validateWord w = true
  · refine ⟨?_, ?_, ?_, ?_, ?_, ?_, ?_, ?_⟩ <;>
      simp only [addWord, fallbackAddWord, if_pos hval] <;>
      simp [List.getElem?_append, hv, he]
  · refine ⟨?_, ?_, ?_, ?_, ?_, ?_, ?_, ?_⟩ <;>
      simp only [addWord, fallbackAddWord, if_neg hval] <;>
      simp

end VWE

namespace VWE

/-- Witness for C10: adding b to the one-word store keeps the entry at
index 0 on both paths and never shrinks the store. -/
theorem append_preserves_existing_entries_witness :
    (addWord ⟨["a"], [[1]], none, []⟩ (fun _ => [1]) "b").vocab.get? 0
      = (["a"] : List String).get? 0 ∧
    (addWord ⟨["a"], [[1]], none, []⟩ (fun _ => [1]) "b").embeddings.get? 0
      = ([[1]] : List (List ℚ)).get? 0 ∧
    (fallbackAddWord id id ⟨["a"], [[1]], none, []⟩ "b").vocab.get? 0
      = (["a"] : List String).get? 0 ∧
    (fallbackAddWord id id ⟨["a"], [[1]], none, []⟩ "b").embeddings.get? 0
      = ([[1]] : List (List ℚ)).get? 0 ∧
    (["a"] : List String).length
      ≤ (addWord ⟨["a"], [[1]], none, []⟩ (fun _ => [1]) "b").vocab.length ∧
    ([[1]] : List (List ℚ)).length
      ≤ (addWord ⟨["a"], [[1]], none, []⟩ (fun _ => [1]) "b").embeddings.length ∧
    (["a"] : List String).length
      ≤ (fallbackAddWord id id ⟨["a"], [[1]], none, []⟩ "b").vocab.length ∧
    ([[1]] : List (List ℚ)).length
      ≤ (fallbackAddWord id id ⟨["a"], [[1]], none, []⟩ "b").embeddings.length :=
  append_preserves_existing_entries ⟨["a"], [[1]], none, []⟩ (fun _ => [1])
    id id "b" 0 (by decide) (by decide)

end VWE
